import Mathlib

/-!
Verification development for the go-box service-discovery subsystem:
registry backends (memory, etcd, ZooKeeper), the registry factory and the
gRPC-style service resolver.  Go maps are embedded as association lists,
Go errors as `Option String` (`none` = nil error), and the long-lived
watch goroutines as functions over finite scripts of backend events.
-/

/-- Go `error` values: `none` is the nil error. -/
abbrev GoErr := Option String

/-- `registry_interface.ServiceInfo`: the record a caller registers. -/
structure ServiceInfo where
  name : String
  address : String
  version : String
  metadata : List (String × String)
  leaseID : Int
deriving DecidableEq

/-- `registry_interface.ServiceInstance`: the projection delivered to watchers. -/
structure ServiceInstance where
  address : String
  metadata : List (String × String)
deriving DecidableEq

/-- Association-list embedding of a Go map: first binding of a key wins. -/
def lookupA {α : Type} : List (String × α) → String → Option α
  | [], _ => none
  | (k', v) :: rest, k => if k' = k then some v else lookupA rest k

/-- Go map assignment `m[k] = v`: replace the binding if present, else append. -/
def upsertA {α : Type} : List (String × α) → String → α → List (String × α)
  | [], k, v => [(k, v)]
  | (k', v') :: rest, k, v =>
      if k' = k then (k, v) :: rest else (k', v') :: upsertA rest k v

/-- Go map `delete(m, k)`: drop every binding of `k`. -/
def eraseA {α : Type} (l : List (String × α)) (k : String) : List (String × α) :=
  l.filter (fun p => p.1 ≠ k)

/-- Keys of an association list are pairwise distinct (true of real Go maps). -/
def keysNodup {α : Type} (l : List (String × α)) : Prop :=
  (l.map Prod.fst).Nodup

/-!
## In-memory registry (`pkg/registry/memory/memory.go`)

`MemoryRegistry` holds `services : serviceName -> address -> ServiceInfo`
and `watchers : serviceName -> subscriber channels` (channels are embedded
as numeric identifiers).  `Register`/`Unregister` return the new state, the
Go error, and the list of notification attempts made to the watchers of the
touched service name (each attempt pairs a watcher id with the snapshot it
was offered; the real code's send is non-blocking, so an attempt may drop).
-/

structure MemoryRegistry where
  services : List (String × List (String × ServiceInfo))
  watchers : List (String × List Nat)
deriving DecidableEq

def NewMemoryRegistry : MemoryRegistry := ⟨[], []⟩

/-- `getInstances`: project the inner address map into fresh instances. -/
def MemoryRegistry.getInstances (m : MemoryRegistry) (serviceName : String) :
    List ServiceInstance :=
  ((lookupA m.services serviceName).getD []).map
    (fun q => { address := q.2.address, metadata := q.2.metadata })

/-- `notifyWatchers`: one non-blocking send attempt per subscriber channel. -/
def MemoryRegistry.notifyAttempts (m : MemoryRegistry) (serviceName : String) :
    List (Nat × List ServiceInstance) :=
  ((lookupA m.watchers serviceName).getD []).map
    (fun w => (w, m.getInstances serviceName))

/-- `MemoryRegistry.Register`: store the info under (name, address), then
notify the watchers of that name; always returns the nil error. -/
def MemoryRegistry.Register (m : MemoryRegistry) (info : ServiceInfo) :
    MemoryRegistry × GoErr × List (Nat × List ServiceInstance) :=
  let inner := (lookupA m.services info.name).getD []
  let m' : MemoryRegistry :=
    { m with services := upsertA m.services info.name (upsertA inner info.address info) }
  (m', none, m'.notifyAttempts info.name)

/-- `MemoryRegistry.Unregister`: delete the (name, address) entry if the name
is present, dropping the whole name when its map becomes empty, then notify
the watchers of that name; always returns the nil error. -/
def MemoryRegistry.Unregister (m : MemoryRegistry) (info : ServiceInfo) :
    MemoryRegistry × GoErr × List (Nat × List ServiceInstance) :=
  let m' : MemoryRegistry :=
    match lookupA m.services info.name with
    | none => m
    | some inner =>
        let inner' := eraseA inner info.address
        if inner'.length = 0 then { m with services := eraseA m.services info.name }
        else { m with services := upsertA m.services info.name inner' }
  (m', none, m'.notifyAttempts info.name)

/-- `MemoryRegistry.Watch`: append a fresh subscriber channel for the name and
push the current snapshot into it before returning.  The second component is
the channel's contents at the moment `Watch` returns (the buffered first
snapshot), the third the returned Go error. -/
def MemoryRegistry.Watch (m : MemoryRegistry) (serviceName : String) (chId : Nat) :
    MemoryRegistry × List (List ServiceInstance) × GoErr :=
  let m' : MemoryRegistry :=
    { m with watchers :=
        upsertA m.watchers serviceName (((lookupA m.watchers serviceName).getD []) ++ [chId]) }
  (m', [m'.getInstances serviceName], none)

def MemoryRegistry.Name (_ : MemoryRegistry) : String := "memory"

/-- `MemoryRegistry.GetServiceInstances`: reads the live `services` map (not a
Watch-maintained cache) and always returns the nil error. -/
def MemoryRegistry.GetServiceInstances (m : MemoryRegistry) (serviceName : String) :
    List ServiceInstance × GoErr :=
  (m.getInstances serviceName, none)

/-- Well-formedness of reachable memory-registry states: each inner address
map has pairwise-distinct keys and each stored info sits under its own
address key. -/
def MemoryRegistry.wf (m : MemoryRegistry) : Prop :=
  ∀ p ∈ m.services, keysNodup p.2 ∧ ∀ q ∈ p.2, q.2.address = q.1

/-!
## etcd registry (`pkg/registry/etcd/etcd_registry.go`)

The etcd key space is embedded as an association list from key strings to
the `ServiceInfo` the stored JSON value decodes to.  `loadInstances` works
on the decoded values of a prefix `Get` (`none` marks a value whose JSON
does not decode and is skipped); it deduplicates by address, keeping the
first occurrence, and rebuilds the metadata as the single "version" pair.
-/

/-- Byte-level "starts with" on strings (etcd prefix Get semantics). -/
def strStartsWith (p s : String) : Bool :=
  p.data.isPrefixOf s.data

/-- The watch/Get key space root for one service: "/go-box-services/name/". -/
def etcdPfx (serviceName : String) : String :=
  "/go-box-services/" ++ serviceName ++ "/"

/-- The key a registration writes: pfx followed by the instance address. -/
def etcdKey (serviceName address : String) : String :=
  etcdPfx serviceName ++ address

/-- Loop of `loadInstances` over decoded kvs with the set of already-seen
addresses (`addrSet` in the source). -/
def etcdLoadGo (seen : List String) : List (Option ServiceInfo) → List ServiceInstance
  | [] => []
  | none :: rest => etcdLoadGo seen rest
  | some info :: rest =>
      if info.address ∈ seen then etcdLoadGo seen rest
      else { address := info.address, metadata := [("version", info.version)] }
             :: etcdLoadGo (info.address :: seen) rest

/-- `loadInstances`: full re-list of the service's key space. -/
def etcdLoadInstances (kvs : List (Option ServiceInfo)) : List ServiceInstance :=
  etcdLoadGo [] kvs

/-- First decoded kv carrying a given address, if any. -/
def firstWithAddr : List (Option ServiceInfo) → String → Option ServiceInfo
  | [], _ => none
  | none :: rest, a => firstWithAddr rest a
  | some info :: rest, a => if info.address = a then some info else firstWithAddr rest a

/-- Number of instances of a snapshot carrying a given address. -/
def addrCount (l : List ServiceInstance) (a : String) : Nat :=
  (l.filter (fun x => x.address = a)).length

structure EtcdRegistry where
  store : List (String × ServiceInfo)
  cache : List (String × List ServiceInstance)
deriving DecidableEq

def NewEtcdRegistry : EtcdRegistry := ⟨[], []⟩

/-- `EtcdRegistry.Register` (success path): `Put` of the marshalled info at
"/go-box-services/name/address"; the lease and keep-alive bookkeeping do not
touch the instance data.  The Watch cache is not written. -/
def EtcdRegistry.Register (e : EtcdRegistry) (info : ServiceInfo) :
    EtcdRegistry × GoErr :=
  ({ e with store := upsertA e.store (etcdKey info.name info.address) info }, none)

/-- `EtcdRegistry.Unregister` (success path): `Delete` of the key and lease
revocation.  The Watch cache is not written. -/
def EtcdRegistry.Unregister (e : EtcdRegistry) (info : ServiceInfo) :
    EtcdRegistry × GoErr :=
  ({ e with store := eraseA e.store (etcdKey info.name info.address) }, none)

def EtcdRegistry.Name (_ : EtcdRegistry) : String := "go-box-etcd"

/-- `EtcdRegistry.GetServiceInstances`: a pure read of the Watch-maintained
cache; the returned list is a copy of the cached snapshot (same elements)
and the error is always nil. -/
def EtcdRegistry.GetServiceInstances (e : EtcdRegistry) (serviceName : String) :
    List ServiceInstance × GoErr :=
  ((lookupA e.cache serviceName).getD [], none)

/-- Decoded kvs a prefix `Get` for one service returns from a store. -/
def etcdKvsForService (store : List (String × ServiceInfo)) (serviceName : String) :
    List (Option ServiceInfo) :=
  (store.filter (fun p => strStartsWith (etcdPfx serviceName) p.1)).map
    (fun p => some p.2)

/-- The snapshot a `loadInstances` call sees for one service on a store. -/
def etcdSnapshot (store : List (String × ServiceInfo)) (serviceName : String) :
    List ServiceInstance :=
  etcdLoadInstances (etcdKvsForService store serviceName)

/-!
## ZooKeeper registry (`internal/registry/zk/zk_registry.go`)

The znode tree is embedded as an association list from full paths to node
data.  `Register` deletes a pre-existing node at the path and creates an
ephemeral node whose data is the instance address; the Watch loop re-lists
the children of the service path and builds one instance per child from its
data (metadata stays empty).
-/

/-- `strings.Trim(service, "/")`. -/
def trimSlash (s : String) : String :=
  String.mk (((s.data.dropWhile (fun c => c = '/')).reverse.dropWhile
    (fun c => c = '/')).reverse)

/-- `servicePath`: "{root}/{trimmed service}". -/
def zkServicePath (rootPath service : String) : String :=
  rootPath ++ "/" ++ trimSlash service

/-- A path is a direct child of `sp`: it extends "sp/" and the remainder has
no further slash. -/
def zkIsChild (sp k : String) : Bool :=
  (sp ++ "/").data.isPrefixOf k.data &&
    !((k.data.drop (sp ++ "/").data.length).contains '/')

structure ZkRegistry where
  rootPath : String
  store : List (String × String)
  cache : List (String × List ServiceInstance)
deriving DecidableEq

/-- `ZkRegistry.Register` (success path): delete the node at
"{servicePath}/{address}" when it exists, then create it with the address as
data.  The Watch cache is not written. -/
def ZkRegistry.Register (z : ZkRegistry) (info : ServiceInfo) :
    ZkRegistry × GoErr :=
  let path := zkServicePath z.rootPath info.name ++ "/" ++ info.address
  let s := if (lookupA z.store path).isSome then eraseA z.store path else z.store
  ({ z with store := s ++ [(path, info.address)] }, none)

/-- `ZkRegistry.Unregister` (success path): delete the node. -/
def ZkRegistry.Unregister (z : ZkRegistry) (info : ServiceInfo) :
    ZkRegistry × GoErr :=
  let path := zkServicePath z.rootPath info.name ++ "/" ++ info.address
  ({ z with store := eraseA z.store path }, none)

def ZkRegistry.Name (_ : ZkRegistry) : String := "go-box-zookeeper"

/-- `ZkRegistry.GetServiceInstances`: a pure read of the Watch-maintained
cache, returning a copy of the cached snapshot and a nil error. -/
def ZkRegistry.GetServiceInstances (z : ZkRegistry) (serviceName : String) :
    List ServiceInstance × GoErr :=
  ((lookupA z.cache serviceName).getD [], none)

/-- The snapshot one iteration of the zk Watch loop builds: the data of each
child of the service path, as an instance with empty metadata. -/
def zkSnapshot (store : List (String × String)) (sp : String) : List ServiceInstance :=
  (store.filter (fun p => zkIsChild sp p.1)).map
    (fun p => { address := p.2, metadata := [] })

/-!
## Registry factory (`pkg/registry/registry.go`)
-/

inductive RegistryType
  | memory
  | etcd
  | zookeeper
deriving DecidableEq

structure EtcdOption where
  endpoints : List String
  dialTimeoutMs : Nat
deriving DecidableEq

structure ZkOption where
  servers : List String
  rootPath : String
  timeoutMs : Nat
deriving DecidableEq

/-- `RegistryOption`: a type discriminator plus one optional sub-config per
variant. -/
structure RegistryOption where
  Type' : RegistryType
  Etcd : Option EtcdOption
  Zookeeper : Option ZkOption
deriving DecidableEq

/-- Which backend `NewRegistry` constructs.  The etcd and ZooKeeper
constructors may still fail when dialling; the memory branch carries the
error `NewRegistry` returns with it, which is always nil. -/
inductive RegistryChoice
  | etcdReg (o : EtcdOption)
  | zkReg (o : ZkOption)
  | memoryReg (err : GoErr)
deriving DecidableEq

/-- `NewRegistry`: the selection switch, evaluated in order. -/
def NewRegistry : Option RegistryOption → RegistryChoice
  | some ⟨RegistryType.etcd, some e, _⟩ => RegistryChoice.etcdReg e
  | some ⟨RegistryType.zookeeper, _, some z⟩ => RegistryChoice.zkReg z
  | _ => RegistryChoice.memoryReg none

/-!
## Resolver (`resolver/etcd_resolver.go`)

`Build` opens a cancellable Watch on the registry and launches one watch
loop.  The loop is embedded as the function from the sequence of snapshots
the registry channel delivers to the sequence of address lists pushed via
`UpdateState`.  The resolver state keeps the cancellation flag of its
context and the last stored address list.
-/

structure serviceResolver where
  ctxDone : Bool
  addrs : List String
deriving DecidableEq

/-- The `UpdateState` calls the watch loop makes: one per received snapshot,
with exactly the raw addresses of that snapshot's instances. -/
def serviceResolver.updateStates (snaps : List (List ServiceInstance)) :
    List (List String) :=
  snaps.map (fun insts => insts.map (fun x => x.address))

/-- `serviceResolver.Close`: cancel the internally held watch context. -/
def serviceResolver.Close (r : serviceResolver) : serviceResolver :=
  { r with ctxDone := true }

/-- `serviceResolver.ResolveNow`: an explicit no-op. -/
def serviceResolver.ResolveNow (r : serviceResolver) : serviceResolver := r

/-- The updates the watch loop performs from a given resolver state: none
once the context is cancelled, otherwise one `UpdateState` per snapshot. -/
def serviceResolver.watchUpdates (r : serviceResolver) (snaps : List (List ServiceInstance)) :
    List (List String) :=
  if r.ctxDone then [] else serviceResolver.updateStates snaps

/-- `ServiceResolverBuilder.Build`: fails exactly when the initial Watch call
fails, otherwise launches the watch loop; the payload is the sequence of
`UpdateState` calls made on the channel contents. -/
def ServiceResolverBuilder.Build (serviceName : String)
    (ch : List (List ServiceInstance)) (err : GoErr) :
    Except String (List (List String)) :=
  match err with
  | some e => Except.error ("failed to watch service [" ++ serviceName ++ "]: " ++ e)
  | none => Except.ok (serviceResolver.updateStates ch)

/-!
## Watch goroutine traces

The long-lived Watch goroutines of the etcd and ZooKeeper backends are
embedded as functions over finite scripts of backend events.  An output
event is either a send attempt of a snapshot on the output channel or the
single `close` of that channel, tagged with its cause.  A script that runs
out models a goroutine still running (no close emitted).
-/

inductive CloseReason
  | ctxDone
  | initLoadErr
deriving DecidableEq

inductive WatchOut
  | emit (s : List ServiceInstance)
  | closed (r : CloseReason)
deriving DecidableEq

/-- Close events may appear at most once and only as the final output. -/
def traceOk : List WatchOut → Bool
  | [] => true
  | WatchOut.closed _ :: rest => rest.isEmpty
  | WatchOut.emit _ :: rest => traceOk rest

/-- One event of the etcd watch stream: an errored response (break), or a
successful response followed by `loadInstances` over the kvs given by the
script (break when that inner `Get` fails). -/
inductive EtcdWatchEv
  | respErr
  | respOkLoadErr
  | respOk (kvs : List (Option ServiceInfo))
deriving DecidableEq

/-- One round of the etcd outer retry loop: the context check at the top,
then the inner range over the watch channel (the list ends when the channel
closes; an error event breaks out early). -/
structure EtcdRoundScript where
  ctxDone : Bool
  evs : List EtcdWatchEv
deriving DecidableEq

/-- Send attempts of one inner watch-channel loop. -/
def etcdInnerEmits : List EtcdWatchEv → List (List ServiceInstance)
  | [] => []
  | EtcdWatchEv.respErr :: _ => []
  | EtcdWatchEv.respOkLoadErr :: _ => []
  | EtcdWatchEv.respOk kvs :: rest => etcdLoadInstances kvs :: etcdInnerEmits rest

/-- The outer retry loop of the etcd Watch goroutine. -/
def etcdOuter : List EtcdRoundScript → List WatchOut
  | [] => []
  | r :: rs =>
      if r.ctxDone then [WatchOut.closed CloseReason.ctxDone]
      else (etcdInnerEmits r.evs).map WatchOut.emit ++ etcdOuter rs

/-- The whole etcd Watch goroutine: the initial `loadInstances` (`none` when
that first full list fails, making the goroutine return and close the
channel), then the retry loop. -/
def etcdWatchRun (initKvs : Option (List (Option ServiceInfo)))
    (rounds : List EtcdRoundScript) : List WatchOut :=
  match initKvs with
  | none => [WatchOut.closed CloseReason.initLoadErr]
  | some kvs => WatchOut.emit (etcdLoadInstances kvs) :: etcdOuter rounds

/-- `backoff *= 2; if backoff > 30s { backoff = 30s }` (in seconds). -/
def etcdNextBackoff (b : Nat) : Nat :=
  if 2 * b > 30 then 30 else 2 * b

/-- The sleeps the etcd retry loop performs, given the current backoff: one
after every round whose inner loop ended without the context being done. -/
def etcdSleeps (b : Nat) : List EtcdRoundScript → List Nat
  | [] => []
  | r :: rs => if r.ctxDone then [] else b :: etcdSleeps (etcdNextBackoff b) rs

/-- The capped exponential backoff value after n retries. -/
def etcdBackoffVal (n : Nat) : Nat :=
  min (2 ^ n) 30

/-- `time.Sleep(time.Second * 2)` in the zk error path, in seconds. -/
def zkRetryDelaySeconds : Nat := 2

/-- One iteration of the zk Watch loop: `ChildrenW` either fails (sleep 2s
and continue) or yields the service's children from the store at that
moment; the two context selects guard the send and the wait for the next
watch event. -/
structure ZkIter where
  childrenErr : Bool
  store : List (String × String)
  ctxDoneAtSend : Bool
  ctxDoneAtWait : Bool
deriving DecidableEq

/-- The zk Watch goroutine over a script of iterations, for the service path
`sp`. -/
def zkRun (sp : String) : List ZkIter → List WatchOut
  | [] => []
  | it :: rest =>
      if it.childrenErr then zkRun sp rest
      else if it.ctxDoneAtSend then [WatchOut.closed CloseReason.ctxDone]
      else WatchOut.emit (zkSnapshot it.store sp) ::
        (if it.ctxDoneAtWait then [WatchOut.closed CloseReason.ctxDone] else zkRun sp rest)

/-- The sleeps the zk Watch loop performs: a fixed delay per failed
`ChildrenW`, until the loop returns. -/
def zkSleepList : List ZkIter → List Nat
  | [] => []
  | it :: rest =>
      if it.childrenErr then zkRetryDelaySeconds :: zkSleepList rest
      else if it.ctxDoneAtSend then []
      else if it.ctxDoneAtWait then []
      else zkSleepList rest

/-- The memory watcher channel: the synchronous first snapshot, then the
delivered notifications (`none` marks one dropped by the non-blocking send),
closed by the context goroutine exactly when the context is done. -/
def memoryWatchTrace (init : List ServiceInstance)
    (notifs : List (Option (List ServiceInstance))) (ctxDone : Bool) : List WatchOut :=
  WatchOut.emit init :: notifs.filterMap (fun o => o.map WatchOut.emit) ++
    (if ctxDone then [WatchOut.closed CloseReason.ctxDone] else [])

/-!
## Operation sequences (for cache-only reads)
-/

inductive RegOp
  | reg (i : ServiceInfo)
  | unreg (i : ServiceInfo)

/-- Apply a sequence of Register/Unregister calls to an etcd registry. -/
def EtcdRegistry.applyOps (e : EtcdRegistry) : List RegOp → EtcdRegistry
  | [] => e
  | RegOp.reg i :: rest => ((e.Register i).1).applyOps rest
  | RegOp.unreg i :: rest => ((e.Unregister i).1).applyOps rest

/-- Apply a sequence of Register/Unregister calls to a zk registry. -/
def ZkRegistry.applyOps (z : ZkRegistry) : List RegOp → ZkRegistry
  | [] => z
  | RegOp.reg i :: rest => ((z.Register i).1).applyOps rest
  | RegOp.unreg i :: rest => ((z.Unregister i).1).applyOps rest

/-- All the kvs lists a script makes available to `loadInstances`: the
initial full list plus one per successful watch response. -/
def etcdScriptKvs (initKvs : Option (List (Option ServiceInfo)))
    (rounds : List EtcdRoundScript) : List (List (Option ServiceInfo)) :=
  (match initKvs with
   | none => []
   | some kvs => [kvs]) ++
  (rounds.flatMap (fun r => r.evs)).filterMap
    (fun ev => match ev with
      | EtcdWatchEv.respOk kvs => some kvs
      | _ => none)

theorem lookupA_upsertA_self {α : Type} (l : List (String × α)) (k : String) (v : α) :
    lookupA (upsertA l k v) k = some v := by
  induction l with
  | nil => simp [upsertA, lookupA]
  | cons p rest ih =>
      by_cases h : p.1 = k
      · simp [upsertA, h, lookupA]
      · simp [upsertA, h, lookupA, ih]

theorem upsertA_upsertA_self {α : Type} (l : List (String × α)) (k : String) (v v' : α) :
    upsertA (upsertA l k v') k v = upsertA l k v := by
  induction l with
  | nil => simp [upsertA]
  | cons p rest ih =>
      by_cases h : p.1 = k
      · simp [upsertA, h]
      · simp [upsertA, h, ih]

theorem mem_upsertA {α : Type} {l : List (String × α)} {k : String} {v : α} {q : String × α} :
    q ∈ upsertA l k v → q = (k, v) ∨ q ∈ l := by
  induction l with
  | nil => simp [upsertA]
  | cons p rest ih =>
      by_cases h : p.1 = k
      · simp only [upsertA, h, if_pos]
        intro hq
        rcases List.mem_cons.mp hq with h1 | h2
        · exact Or.inl h1
        · exact Or.inr (List.mem_cons_of_mem _ h2)
      · simp only [upsertA, h, if_neg, not_false_iff]
        intro hq
        rcases List.mem_cons.mp hq with h1 | h2
        · exact Or.inr (h1 ▸ List.mem_cons_self _ _)
        · rcases ih h2 with h3 | h4
          · exact Or.inl h3
          · exact Or.inr (List.mem_cons_of_mem _ h4)

theorem mem_upsertA_self {α : Type} (l : List (String × α)) (k : String) (v : α) :
    (k, v) ∈ upsertA l k v := by
  induction l with
  | nil => simp [upsertA]
  | cons p rest ih =>
      by_cases h : p.1 = k
      · simp [upsertA, h]
      · simp only [upsertA, h, if_neg, not_false_iff]
        exact List.mem_cons_of_mem _ ih

theorem keys_upsertA_subset {α : Type} (l : List (String × α)) (k : String) (v : α) :
    ∀ x ∈ (upsertA l k v).map Prod.fst, x = k ∨ x ∈ l.map Prod.fst := by
  intro x hx
  rcases List.mem_map.mp hx with ⟨q, hq, hqx⟩
  rcases mem_upsertA hq with h1 | h2
  · left; rw [← hqx, h1]
  · right; exact hqx ▸ List.mem_map_of_mem Prod.fst h2

theorem keysNodup_upsertA {α : Type} (l : List (String × α)) (k : String) (v : α) :
    keysNodup l → keysNodup (upsertA l k v) := by
  induction l with
  | nil => intro _; simp [upsertA, keysNodup]
  | cons p rest ih =>
      intro hn
      have hn' : keysNodup rest := (List.nodup_cons.mp hn).2
      have hp : p.1 ∉ rest.map Prod.fst := (List.nodup_cons.mp hn).1
      by_cases h : p.1 = k
      · unfold keysNodup
        simp only [upsertA, h, if_pos, List.map_cons, List.nodup_cons]
        exact ⟨h ▸ hp, hn'⟩
      · unfold keysNodup
        simp only [upsertA, h, if_neg, not_false_iff, List.map_cons, List.nodup_cons]
        constructor
        · intro hcon
          rcases keys_upsertA_subset rest k v p.1 hcon with h1 | h2
          · exact h h1
          · exact hp h2
        · exact ih hn'

theorem lookupA_mem {α : Type} {l : List (String × α)} {k : String} {v : α} :
    lookupA l k = some v → (k, v) ∈ l := by
  induction l with
  | nil => simp [lookupA]
  | cons p rest ih =>
      cases p with
      | mk a b =>
          by_cases h : a = k
          · simp only [lookupA, h, if_pos, Option.some.injEq]
            intro hv
            rw [← h, ← hv]
            exact List.mem_cons_self _ _
          · simp only [lookupA, h, if_neg, not_false_iff]
            intro hv
            exact List.mem_cons_of_mem _ (ih hv)

theorem lookupA_none_not_mem {α : Type} {l : List (String × α)} {k : String} :
    lookupA l k = none → ∀ q ∈ l, q.1 ≠ k := by
  induction l with
  | nil => intro _ q hq; simp at hq
  | cons p rest ih =>
      by_cases h : p.1 = k
      · simp [lookupA, h]
      · simp only [lookupA, h, if_neg, not_false_iff]
        intro hn q hq
        rcases List.mem_cons.mp hq with h1 | h2
        · rw [h1]; exact h
        · exact ih hn q h2

theorem eraseA_eq_self_of_lookup_none {α : Type} {l : List (String × α)} {k : String} :
    lookupA l k = none → eraseA l k = l := by
  intro hn
  unfold eraseA
  apply List.filter_eq_self.mpr
  intro q hq
  exact decide_eq_true (lookupA_none_not_mem hn q hq)

theorem lookupA_eraseA_self {α : Type} (l : List (String × α)) (k : String) :
    lookupA (eraseA l k) k = none := by
  induction l with
  | nil => simp [eraseA, lookupA]
  | cons p rest ih =>
      by_cases h : p.1 = k
      · simpa [eraseA, h] using ih
      · simpa [eraseA, h, lookupA] using ih

theorem eraseA_append {α : Type} (l₁ l₂ : List (String × α)) (k : String) :
    eraseA (l₁ ++ l₂) k = eraseA l₁ k ++ eraseA l₂ k := by
  simp [eraseA, List.filter_append]

theorem eraseA_eraseA {α : Type} (l : List (String × α)) (k : String) :
    eraseA (eraseA l k) k = eraseA l k := by
  simp [eraseA, List.filter_filter]

theorem lookupA_append_single_isSome {α : Type} (l : List (String × α)) (k : String) (v : α) :
    (lookupA (l ++ [(k, v)]) k).isSome = true := by
  induction l with
  | nil => simp [lookupA]
  | cons p rest ih =>
      by_cases h : p.1 = k
      · simp [lookupA, h]
      · simpa [lookupA, h] using ih

theorem filter_key_nil {α : Type} {l : List (String × α)} {k : String} :
    k ∉ l.map Prod.fst → l.filter (fun q => q.1 = k) = [] := by
  intro hk
  apply List.filter_eq_nil_iff.mpr
  intro q hq
  simp only [decide_eq_true_eq]
  intro hqk
  exact hk (hqk ▸ List.mem_map_of_mem Prod.fst hq)

theorem countKey_eq_one {α : Type} {l : List (String × α)} {k : String} {v : α} :
    keysNodup l → (k, v) ∈ l → (l.filter (fun q => q.1 = k)).length = 1 := by
  induction l with
  | nil => intro _ h; simp at h
  | cons p rest ih =>
      intro hn hm
      have hp : p.1 ∉ rest.map Prod.fst := (List.nodup_cons.mp hn).1
      have hn' : keysNodup rest := (List.nodup_cons.mp hn).2
      rcases List.mem_cons.mp hm with h1 | h2
      · have hk : p.1 = k := by rw [← h1]
        have hnone : rest.filter (fun q => q.1 = k) = [] :=
          filter_key_nil (by rw [← hk]; exact hp)
        rw [List.filter_cons]
        simp [hk, hnone]
      · have hk : p.1 ≠ k := by
          intro hc
          exact hp (hc ▸ List.mem_map_of_mem Prod.fst h2)
        rw [List.filter_cons]
        simp only [decide_eq_true_eq, hk, if_false]
        exact ih hn' h2

/-!
## Lemmas about the etcd snapshot builder
-/

theorem etcdLoadGo_not_seen :
    ∀ (kvs : List (Option ServiceInfo)) (seen : List String) (inst : ServiceInstance),
      inst ∈ etcdLoadGo seen kvs → inst.address ∉ seen := by
  intro kvs
  induction kvs with
  | nil => intro seen inst h; simp [etcdLoadGo] at h
  | cons kv rest ih =>
      intro seen inst h
      match kv with
      | none => exact ih seen inst h
      | some info =>
          by_cases hs : info.address ∈ seen
          · simp only [etcdLoadGo, if_pos hs] at h
            exact ih seen inst h
          · simp only [etcdLoadGo, if_neg hs] at h
            rcases List.mem_cons.mp h with h1 | h2
            · rw [h1]; exact hs
            · have := ih (info.address :: seen) inst h2
              intro hc
              exact this (List.mem_cons_of_mem _ hc)

theorem etcdLoadGo_nodup :
    ∀ (kvs : List (Option ServiceInfo)) (seen : List String),
      ((etcdLoadGo seen kvs).map ServiceInstance.address).Nodup := by
  intro kvs
  induction kvs with
  | nil => intro seen; simp [etcdLoadGo]
  | cons kv rest ih =>
      intro seen
      match kv with
      | none => exact ih seen
      | some info =>
          by_cases hs : info.address ∈ seen
          · simp only [etcdLoadGo, if_pos hs]
            exact ih seen
          · simp only [etcdLoadGo, if_neg hs, List.map_cons, List.nodup_cons]
            constructor
            · intro hc
              rcases List.mem_map.mp hc with ⟨inst, hinst, haddr⟩
              have := etcdLoadGo_not_seen rest (info.address :: seen) inst hinst
              exact this (haddr ▸ List.mem_cons_self _ _)
            · exact ih (info.address :: seen)

theorem etcdLoadGo_first :
    ∀ (kvs : List (Option ServiceInfo)) (seen : List String) (inst : ServiceInstance),
      inst ∈ etcdLoadGo seen kvs →
      ∃ info, firstWithAddr kvs inst.address = some info ∧
        inst.address = info.address ∧ inst.metadata = [("version", info.version)] := by
  intro kvs
  induction kvs with
  | nil => intro seen inst h; simp [etcdLoadGo] at h
  | cons kv rest ih =>
      intro seen inst h
      match kv with
      | none => exact ih seen inst h
      | some info =>
          by_cases hs : info.address ∈ seen
          · simp only [etcdLoadGo, if_pos hs] at h
            have hne : inst.address ≠ info.address := by
              intro hc
              exact etcdLoadGo_not_seen rest seen inst h (hc ▸ hs)
            rcases ih seen inst h with ⟨j, hj, hja, hjm⟩
            refine ⟨j, ?_, hja, hjm⟩
            simp only [firstWithAddr, if_neg (Ne.symm hne)]
            exact hj
          · simp only [etcdLoadGo, if_neg hs] at h
            rcases List.mem_cons.mp h with h1 | h2
            · refine ⟨info, ?_, ?_, ?_⟩
              · have : inst.address = info.address := by rw [h1]
                simp only [firstWithAddr, if_pos this.symm]
              · rw [h1]
              · rw [h1]
            · have hne : inst.address ≠ info.address := by
                intro hc
                exact etcdLoadGo_not_seen rest (info.address :: seen) inst h2
                  (hc ▸ List.mem_cons_self _ _)
              rcases ih (info.address :: seen) inst h2 with ⟨j, hj, hja, hjm⟩
              refine ⟨j, ?_, hja, hjm⟩
              simp only [firstWithAddr, if_neg (Ne.symm hne)]
              exact hj

theorem etcdLoadGo_exists :
    ∀ (kvs : List (Option ServiceInfo)) (seen : List String) (a : String),
      a ∉ seen → (firstWithAddr kvs a).isSome →
      ∃ inst ∈ etcdLoadGo seen kvs, inst.address = a := by
  intro kvs
  induction kvs with
  | nil => intro seen a _ h; simp [firstWithAddr] at h
  | cons kv rest ih =>
      intro seen a ha h
      match kv with
      | none => exact ih seen a ha h
      | some info =>
          by_cases heq : info.address = a
          · by_cases hs : info.address ∈ seen
            · exact absurd (heq ▸ hs) ha
            · refine ⟨⟨info.address, [("version", info.version)]⟩, ?_, heq⟩
              simp only [etcdLoadGo, if_neg hs]
              exact List.mem_cons_self _ _
          · simp only [firstWithAddr, if_neg heq] at h
            by_cases hs : info.address ∈ seen
            · simp only [etcdLoadGo, if_pos hs]
              exact ih seen a ha h
            · simp only [etcdLoadGo, if_neg hs]
              rcases ih (info.address :: seen) a
                  (fun hc => by
                    rcases List.mem_cons.mp hc with h1 | h2
                    · exact heq h1.symm
                    · exact ha h2) h with ⟨inst, hinst, hia⟩
              exact ⟨inst, List.mem_cons_of_mem _ hinst, hia⟩

theorem firstWithAddr_isSome_of_mem :
    ∀ (kvs : List (Option ServiceInfo)) (info : ServiceInfo) (a : String),
      some info ∈ kvs → info.address = a → (firstWithAddr kvs a).isSome := by
  intro kvs
  induction kvs with
  | nil => intro info a h _; simp at h
  | cons kv rest ih =>
      intro info a h ha
      match kv with
      | none =>
          rcases List.mem_cons.mp h with h1 | h2
          · exact absurd h1 (by simp)
          · exact ih info a h2 ha
      | some j =>
          by_cases heq : j.address = a
          · simp [firstWithAddr, heq]
          · simp only [firstWithAddr, if_neg heq]
            rcases List.mem_cons.mp h with h1 | h2
            · have : info = j := by
                have := h1
                simpa using this
              exact absurd (this ▸ ha) heq
            · exact ih info a h2 ha

theorem filter_addr_nil {l : List ServiceInstance} {a : String} :
    a ∉ l.map ServiceInstance.address → l.filter (fun x => x.address = a) = [] := by
  intro hk
  apply List.filter_eq_nil_iff.mpr
  intro x hx
  simp only [decide_eq_true_eq]
  intro hxa
  exact hk (hxa ▸ List.mem_map_of_mem ServiceInstance.address hx)

theorem addrCount_eq_one_of_nodup {l : List ServiceInstance} {a : String} :
    (l.map ServiceInstance.address).Nodup →
    (∃ inst ∈ l, inst.address = a) → addrCount l a = 1 := by
  induction l with
  | nil => intro _ h; simp at h
  | cons x rest ih =>
      intro hn hm
      have hx : x.address ∉ rest.map ServiceInstance.address := (List.nodup_cons.mp hn).1
      have hn' : (rest.map ServiceInstance.address).Nodup := (List.nodup_cons.mp hn).2
      by_cases hxa : x.address = a
      · have hrest : rest.filter (fun y => y.address = a) = [] :=
          filter_addr_nil (by rw [← hxa]; exact hx)
        unfold addrCount
        rw [List.filter_cons]
        simp [hxa, hrest, addrCount]
      · rcases hm with ⟨inst, hinst, hia⟩
        rcases List.mem_cons.mp hinst with h1 | h2
        · exact absurd (h1 ▸ hia) hxa
        · unfold addrCount
          rw [List.filter_cons]
          simp only [decide_eq_true_eq, hxa, if_false]
          exact ih hn' ⟨inst, h2, hia⟩

theorem upsertA_lookup_self {α : Type} {l : List (String × α)} {k : String} {v : α} :
    lookupA l k = some v → upsertA l k v = l := by
  induction l with
  | nil => simp [lookupA]
  | cons p rest ih =>
      cases p with
      | mk a b =>
          by_cases h : a = k
          · simp only [lookupA, h, if_pos, Option.some.injEq]
            intro hv
            simp [upsertA, h, ← hv]
          · simp only [lookupA, h, if_neg, not_false_iff]
            intro hv
            simp [upsertA, h, ih hv]

/-!
## String lemmas for key spaces and znode paths
-/

theorem isPrefixOf_append_self {α : Type} [BEq α] [LawfulBEq α] (l t : List α) :
    l.isPrefixOf (l ++ t) = true := by
  induction l with
  | nil => simp [List.isPrefixOf]
  | cons a as ih => simp [List.isPrefixOf, ih]

theorem strStartsWith_append (p r : String) : strStartsWith p (p ++ r) = true := by
  unfold strStartsWith
  rw [String.data_append]
  exact isPrefixOf_append_self p.data r.data

theorem zkIsChild_self (sp a : String) (h : '/' ∉ a.data) :
    zkIsChild sp (sp ++ "/" ++ a) = true := by
  unfold zkIsChild
  have hdata : (sp ++ "/" ++ a).data = (sp ++ "/").data ++ a.data := by
    rw [String.data_append]
  rw [hdata, isPrefixOf_append_self, List.drop_left]
  simp only [Bool.true_and, Bool.not_eq_true']
  rw [List.contains_eq_any_beq]
  simp only [List.any_eq_false, beq_iff_eq]
  intro c hc hcontra
  exact h (hcontra ▸ hc)

/-!
## Trace lemmas for the Watch goroutines
-/

theorem traceOk_emits_append (xs : List (List ServiceInstance)) (t : List WatchOut) :
    traceOk (xs.map WatchOut.emit ++ t) = traceOk t := by
  induction xs with
  | nil => rfl
  | cons x rest ih => simpa [traceOk] using ih

theorem closed_not_mem_emits {xs : List (List ServiceInstance)} {r : CloseReason} :
    WatchOut.closed r ∉ xs.map WatchOut.emit := by
  intro h
  rcases List.mem_map.mp h with ⟨s, _, hs⟩
  exact WatchOut.noConfusion hs

theorem etcdOuter_traceOk (rounds : List EtcdRoundScript) :
    traceOk (etcdOuter rounds) = true := by
  induction rounds with
  | nil => rfl
  | cons r rs ih =>
      by_cases h : r.ctxDone
      · simp [etcdOuter, h, traceOk]
      · have hstep : etcdOuter (r :: rs) =
            (etcdInnerEmits r.evs).map WatchOut.emit ++ etcdOuter rs := by
          simp [etcdOuter, h]
        rw [hstep, traceOk_emits_append]
        exact ih

theorem etcdOuter_closed {rounds : List EtcdRoundScript} {r : CloseReason} :
    WatchOut.closed r ∈ etcdOuter rounds →
    r = CloseReason.ctxDone ∧ ∃ rd ∈ rounds, rd.ctxDone = true := by
  induction rounds with
  | nil => intro h; simp [etcdOuter] at h
  | cons rd rds ih =>
      intro h
      by_cases hc : rd.ctxDone
      · simp only [etcdOuter, hc, if_pos] at h
        rcases List.mem_cons.mp h with h1 | h2
        · exact ⟨(WatchOut.closed.injEq _ _ ▸ h1 : _), rd, List.mem_cons_self _ _, hc⟩
        · simp at h2
      · simp only [etcdOuter, hc, if_false] at h
        rcases List.mem_append.mp h with h1 | h2
        · exact absurd h1 closed_not_mem_emits
        · rcases ih h2 with ⟨hr, rd', hrd', hcd⟩
          exact ⟨hr, rd', List.mem_cons_of_mem _ hrd', hcd⟩

theorem etcdInnerEmits_mem {evs : List EtcdWatchEv} {s : List ServiceInstance} :
    s ∈ etcdInnerEmits evs →
    ∃ kvs, EtcdWatchEv.respOk kvs ∈ evs ∧ s = etcdLoadInstances kvs := by
  induction evs with
  | nil => intro h; simp [etcdInnerEmits] at h
  | cons ev rest ih =>
      intro h
      match ev with
      | EtcdWatchEv.respErr => simp [etcdInnerEmits] at h
      | EtcdWatchEv.respOkLoadErr => simp [etcdInnerEmits] at h
      | EtcdWatchEv.respOk kvs =>
          rcases List.mem_cons.mp h with h1 | h2
          · exact ⟨kvs, List.mem_cons_self _ _, h1⟩
          · rcases ih h2 with ⟨kvs', hk, hs⟩
            exact ⟨kvs', List.mem_cons_of_mem _ hk, hs⟩

theorem etcdOuter_emit {rounds : List EtcdRoundScript} {s : List ServiceInstance} :
    WatchOut.emit s ∈ etcdOuter rounds →
    ∃ rd ∈ rounds, ∃ kvs, EtcdWatchEv.respOk kvs ∈ rd.evs ∧ s = etcdLoadInstances kvs := by
  induction rounds with
  | nil => intro h; simp [etcdOuter] at h
  | cons rd rds ih =>
      intro h
      by_cases hc : rd.ctxDone
      · simp [etcdOuter, hc] at h
      · simp only [etcdOuter, hc, if_false] at h
        rcases List.mem_append.mp h with h1 | h2
        · rcases List.mem_map.mp h1 with ⟨s', hs', heq⟩
          have hss : s' = s := by
            have := heq
            simpa using this
          rcases etcdInnerEmits_mem (hss ▸ hs') with ⟨kvs, hk, hs⟩
          exact ⟨rd, List.mem_cons_self _ _, kvs, hk, hs⟩
        · rcases ih h2 with ⟨rd', hrd', kvs, hk, hs⟩
          exact ⟨rd', List.mem_cons_of_mem _ hrd', kvs, hk, hs⟩

theorem zkRun_traceOk (sp : String) (iters : List ZkIter) :
    traceOk (zkRun sp iters) = true := by
  induction iters with
  | nil => rfl
  | cons it rest ih =>
      by_cases h1 : it.childrenErr
      · simpa [zkRun, h1] using ih
      · by_cases h2 : it.ctxDoneAtSend
        · simp [zkRun, h1, h2, traceOk]
        · by_cases h3 : it.ctxDoneAtWait
          · simp [zkRun, h1, h2, h3, traceOk]
          · simpa [zkRun, h1, h2, h3, traceOk] using ih

theorem zkRun_closed {sp : String} {iters : List ZkIter} {r : CloseReason} :
    WatchOut.closed r ∈ zkRun sp iters →
    r = CloseReason.ctxDone ∧
      ∃ it ∈ iters, it.childrenErr = false ∧
        (it.ctxDoneAtSend = true ∨ it.ctxDoneAtWait = true) := by
  induction iters with
  | nil => intro h; simp [zkRun] at h
  | cons it rest ih =>
      intro h
      by_cases h1 : it.childrenErr
      · simp only [zkRun, h1, if_pos] at h
        rcases ih h with ⟨hr, it', hit', hprops⟩
        exact ⟨hr, it', List.mem_cons_of_mem _ hit', hprops⟩
      · by_cases h2 : it.ctxDoneAtSend
        · simp only [zkRun, h1, if_false, h2, if_pos] at h
          rcases List.mem_cons.mp h with hh | hh
          · refine ⟨(WatchOut.closed.injEq _ _ ▸ hh : _), it, List.mem_cons_self _ _, ?_, Or.inl h2⟩
            simpa using h1
          · simp at hh
        · simp only [zkRun, h1, h2, if_false] at h
          rcases List.mem_cons.mp h with hh | hh
          · exact absurd hh (by simp)
          · by_cases h3 : it.ctxDoneAtWait
            · simp only [h3, if_pos] at hh
              rcases List.mem_cons.mp hh with h4 | h4
              · refine ⟨(WatchOut.closed.injEq _ _ ▸ h4 : _), it, List.mem_cons_self _ _, ?_, Or.inr h3⟩
                simpa using h1
              · simp at h4
            · simp only [h3, if_false] at hh
              rcases ih hh with ⟨hr, it', hit', hprops⟩
              exact ⟨hr, it', List.mem_cons_of_mem _ hit', hprops⟩

theorem zkRun_emit {sp : String} {iters : List ZkIter} {s : List ServiceInstance} :
    WatchOut.emit s ∈ zkRun sp iters →
    ∃ it ∈ iters, it.childrenErr = false ∧ s = zkSnapshot it.store sp := by
  induction iters with
  | nil => intro h; simp [zkRun] at h
  | cons it rest ih =>
      intro h
      by_cases h1 : it.childrenErr
      · simp only [zkRun, h1, if_pos] at h
        rcases ih h with ⟨it', hit', hprops⟩
        exact ⟨it', List.mem_cons_of_mem _ hit', hprops⟩
      · by_cases h2 : it.ctxDoneAtSend
        · simp [zkRun, h1, h2] at h
        · simp only [zkRun, h1, h2, if_false] at h
          rcases List.mem_cons.mp h with hh | hh
          · refine ⟨it, List.mem_cons_self _ _, by simpa using h1, ?_⟩
            have := WatchOut.emit.injEq s (zkSnapshot it.store sp) ▸ hh
            simpa using hh
          · by_cases h3 : it.ctxDoneAtWait
            · simp only [h3, if_pos] at hh
              rcases List.mem_cons.mp hh with h4 | h4
              · exact WatchOut.noConfusion h4
              · exact absurd h4 (List.not_mem_nil _)
            · simp only [h3, if_false] at hh
              rcases ih hh with ⟨it', hit', hprops⟩
              exact ⟨it', List.mem_cons_of_mem _ hit', hprops⟩

theorem traceOk_filterMap_emits (notifs : List (Option (List ServiceInstance))) (t : List WatchOut) :
    traceOk (notifs.filterMap (fun o => o.map WatchOut.emit) ++ t) = traceOk t := by
  induction notifs with
  | nil => rfl
  | cons o rest ih =>
      match o with
      | none => simpa [List.filterMap_cons] using ih
      | some s => simpa [List.filterMap_cons, traceOk] using ih

theorem memoryTrace_traceOk (init : List ServiceInstance)
    (notifs : List (Option (List ServiceInstance))) (ctxDone : Bool) :
    traceOk (memoryWatchTrace init notifs ctxDone) = true := by
  have h1 : traceOk (memoryWatchTrace init notifs ctxDone) =
      traceOk (notifs.filterMap (fun o => o.map WatchOut.emit) ++
        (if ctxDone = true then [WatchOut.closed CloseReason.ctxDone] else [])) := rfl
  rw [h1, traceOk_filterMap_emits]
  cases ctxDone <;> rfl

theorem memoryTrace_closed_iff (init : List ServiceInstance)
    (notifs : List (Option (List ServiceInstance))) (ctxDone : Bool) :
    (WatchOut.closed CloseReason.ctxDone ∈ memoryWatchTrace init notifs ctxDone ↔ ctxDone = true)
    ∧ ∀ r, WatchOut.closed r ∈ memoryWatchTrace init notifs ctxDone → r = CloseReason.ctxDone := by
  constructor
  · constructor
    · intro h
      unfold memoryWatchTrace at h
      rcases List.mem_cons.mp h with h1 | h2
      · exact absurd h1 (by simp)
      · rcases List.mem_append.mp h2 with h3 | h4
        · rcases List.mem_filterMap.mp h3 with ⟨o, _, ho⟩
          match o with
          | none => simp at ho
          | some s => simp at ho
        · cases ctxDone with
          | true => rfl
          | false => simp at h4
    · intro h
      unfold memoryWatchTrace
      apply List.mem_cons_of_mem
      apply List.mem_append.mpr
      right
      simp [h]
  · intro r h
    unfold memoryWatchTrace at h
    rcases List.mem_cons.mp h with h1 | h2
    · exact absurd h1 (by simp)
    · rcases List.mem_append.mp h2 with h3 | h4
      · rcases List.mem_filterMap.mp h3 with ⟨o, _, ho⟩
        match o with
        | none => simp at ho
        | some s => simp at ho
      · cases ctxDone with
        | true =>
            simp only [if_pos] at h4
            rcases List.mem_cons.mp h4 with h5 | h5
            · exact (WatchOut.closed.injEq _ _ ▸ h5 : _)
            · simp at h5
        | false => simp at h4

/-!
## Backoff lemmas
-/

theorem etcdNextBackoff_eq_min (b : Nat) : etcdNextBackoff b = min (2 * b) 30 := by
  unfold etcdNextBackoff
  split <;> omega

theorem etcdNextBackoff_backoffVal (n : Nat) :
    etcdNextBackoff (etcdBackoffVal n) = etcdBackoffVal (n + 1) := by
  rw [etcdNextBackoff_eq_min]
  unfold etcdBackoffVal
  have h2 : 2 ^ (n + 1) = 2 * 2 ^ n := by
    rw [Nat.pow_succ]
    omega
  rcases Nat.le_total (2 ^ n) 30 with h | h
  · rw [Nat.min_eq_left h]
    omega
  · rw [Nat.min_eq_right h]
    have : (30 : Nat) ≤ 2 ^ (n + 1) := by omega
    omega

theorem etcdSleeps_getElem :
    ∀ (rounds : List EtcdRoundScript) (n i : Nat) (d : Nat),
      (etcdSleeps (etcdBackoffVal n) rounds)[i]? = some d → d = etcdBackoffVal (n + i) := by
  intro rounds
  induction rounds with
  | nil => intro n i d h; simp [etcdSleeps] at h
  | cons r rs ih =>
      intro n i d h
      by_cases hc : r.ctxDone
      · simp [etcdSleeps, hc] at h
      · have hstep : etcdSleeps (etcdBackoffVal n) (r :: rs) =
            etcdBackoffVal n :: etcdSleeps (etcdNextBackoff (etcdBackoffVal n)) rs := by
          simp [etcdSleeps, hc]
        rw [hstep] at h
        match i with
        | 0 =>
            simp only [List.getElem?_cons_zero, Option.some.injEq] at h
            rw [← h, Nat.add_zero]
        | Nat.succ j =>
            simp only [List.getElem?_cons_succ] at h
            rw [etcdNextBackoff_backoffVal] at h
            have := ih (n + 1) j d h
            rw [this]
            congr 1
            omega

theorem etcdBackoffVal_zero : etcdBackoffVal 0 = 1 := rfl

theorem etcdSleeps_bounds :
    ∀ (rounds : List EtcdRoundScript) (n : Nat) (d : Nat),
      d ∈ etcdSleeps (etcdBackoffVal n) rounds → 1 ≤ d ∧ d ≤ 30 := by
  intro rounds
  induction rounds with
  | nil => intro n d h; simp [etcdSleeps] at h
  | cons r rs ih =>
      intro n d h
      by_cases hc : r.ctxDone
      · simp [etcdSleeps, hc] at h
      · simp only [etcdSleeps, hc, if_false] at h
        rcases List.mem_cons.mp h with h1 | h2
        · rw [h1]
          unfold etcdBackoffVal
          have : 1 ≤ 2 ^ n := Nat.one_le_two_pow
          omega
        · rw [etcdNextBackoff_backoffVal] at h2
          exact ih (n + 1) d h2

theorem zkSleepList_all_two :
    ∀ (iters : List ZkIter) (d : Nat), d ∈ zkSleepList iters → d = 2 := by
  intro iters
  induction iters with
  | nil => intro d h; simp [zkSleepList] at h
  | cons it rest ih =>
      intro d h
      by_cases h1 : it.childrenErr
      · simp only [zkSleepList, h1, if_pos] at h
        rcases List.mem_cons.mp h with h2 | h2
        · exact h2
        · exact ih d h2
      · by_cases h2 : it.ctxDoneAtSend
        · simp [zkSleepList, h1, h2] at h
        · by_cases h3 : it.ctxDoneAtWait
          · simp [zkSleepList, h1, h2, h3] at h
          · simp only [zkSleepList, h1, h2, h3, if_false] at h
            exact ih d h

/-!
## Cache-preservation lemmas
-/

theorem etcdApplyOps_cache (ops : List RegOp) :
    ∀ (e : EtcdRegistry), (e.applyOps ops).cache = e.cache := by
  induction ops with
  | nil => intro e; rfl
  | cons op rest ih =>
      intro e
      match op with
      | RegOp.reg i => exact ih ((e.Register i).1)
      | RegOp.unreg i => exact ih ((e.Unregister i).1)

theorem zkApplyOps_cache (ops : List RegOp) :
    ∀ (z : ZkRegistry), (z.applyOps ops).cache = z.cache := by
  induction ops with
  | nil => intro z; rfl
  | cons op rest ih =>
      intro z
      match op with
      | RegOp.reg i => exact ih ((z.Register i).1)
      | RegOp.unreg i => exact ih ((z.Unregister i).1)

/-- The inner address map a memory-registry lookup yields satisfies the
well-formedness facts. -/
theorem MemoryRegistry.wf_inner {m : MemoryRegistry} (hwf : m.wf) (n : String) :
    keysNodup ((lookupA m.services n).getD []) ∧
      ∀ q ∈ (lookupA m.services n).getD [], q.2.address = q.1 := by
  cases hl : lookupA m.services n with
  | none => simp [keysNodup]
  | some inner =>
      have hmem : (n, inner) ∈ m.services := lookupA_mem hl
      have := hwf (n, inner) hmem
      simpa using this

/-!
## Claim theorems
-/

/-- C2 (amended): for the etcd and ZooKeeper backends, GetServiceInstances
is a pure read of the Watch-maintained cache: starting from a freshly
constructed registry (empty cache) and applying any sequence of Register
and Unregister calls — so the backing store may hold instances — it returns
the empty list and a nil error for every service name, because only Watch
writes the cache.  The in-memory backend instead reads its live service
map, so it reflects registrations even when Watch was never called; its
error is also always nil. -/
theorem C2_get_reads_watch_cache_only :
    (∀ (store0 : List (String × ServiceInfo)) (ops : List RegOp) (serviceName : String),
       (EtcdRegistry.applyOps (EtcdRegistry.mk store0 []) ops).GetServiceInstances serviceName
         = ([], none))
  ∧ (∀ (root : String) (store0 : List (String × String)) (ops : List RegOp)
       (serviceName : String),
       (ZkRegistry.applyOps (ZkRegistry.mk root store0 []) ops).GetServiceInstances serviceName
         = ([], none))
  ∧ (∀ (m : MemoryRegistry) (serviceName : String),
       m.GetServiceInstances serviceName = (m.getInstances serviceName, none)) := by
  refine ⟨?_, ?_, ?_⟩
  · intro store0 ops serviceName
    unfold EtcdRegistry.GetServiceInstances
    rw [etcdApplyOps_cache]
    rfl
  · intro root store0 ops serviceName
    unfold ZkRegistry.GetServiceInstances
    rw [zkApplyOps_cache]
    rfl
  · intro m serviceName
    rfl

/-- C2 counterexample: on the in-memory backend, registering an instance and
then calling GetServiceInstances without ever calling Watch returns that
instance — a list of length 1, not the empty list the claim requires. -/
theorem C2_counterexample :
    (MemoryRegistry.GetServiceInstances
        ((NewMemoryRegistry.Register
          (ServiceInfo.mk "svc-a" "10.0.0.1:9000" "v1" [] 0)).1) "svc-a").1
      = [ServiceInstance.mk "10.0.0.1:9000" []]
    ∧ ([ServiceInstance.mk "10.0.0.1:9000" []].length = 0 → False) := by
  constructor
  · rfl
  · intro h
    simp at h

/-- C4: NewRegistry constructs the etcd backend exactly when the option is
non-nil with etcd type and a non-nil etcd sub-config, the ZooKeeper backend
exactly when the option is non-nil with ZooKeeper type and a non-nil
ZooKeeper sub-config, and in every other case (nil option included, and an
explicit etcd or ZooKeeper type with a nil matching sub-config included)
the in-memory backend with a nil error. -/
theorem C4_new_registry_selection (opt : Option RegistryOption) :
    (∀ e, NewRegistry opt = RegistryChoice.etcdReg e ↔
       ∃ o, opt = some o ∧ o.Type' = RegistryType.etcd ∧ o.Etcd = some e)
  ∧ (∀ z, NewRegistry opt = RegistryChoice.zkReg z ↔
       ∃ o, opt = some o ∧ o.Type' = RegistryType.zookeeper ∧ o.Zookeeper = some z)
  ∧ (NewRegistry opt = RegistryChoice.memoryReg none ↔
       (¬ ∃ o e, opt = some o ∧ o.Type' = RegistryType.etcd ∧ o.Etcd = some e) ∧
       (¬ ∃ o z, opt = some o ∧ o.Type' = RegistryType.zookeeper ∧ o.Zookeeper = some z)) := by
  match opt with
  | none => refine ⟨?_, ?_, ?_⟩ <;> simp [NewRegistry]
  | some (RegistryOption.mk t oe oz) =>
      match t, oe, oz with
      | RegistryType.memory, oe, oz =>
          refine ⟨?_, ?_, ?_⟩ <;> simp [NewRegistry]
      | RegistryType.etcd, some e, oz =>
          refine ⟨?_, ?_, ?_⟩ <;> simp [NewRegistry]
      | RegistryType.etcd, none, oz =>
          refine ⟨?_, ?_, ?_⟩ <;> simp [NewRegistry]
      | RegistryType.zookeeper, oe, some z =>
          refine ⟨?_, ?_, ?_⟩ <;> simp [NewRegistry]
      | RegistryType.zookeeper, oe, none =>
          refine ⟨?_, ?_, ?_⟩ <;> simp [NewRegistry]

/-- C6: the in-memory Watch returns a nil error and a channel into which the
current snapshot was already pushed synchronously before returning; for a
name that was never registered that first snapshot is the empty list, not
an error. -/
theorem C6_memory_watch_first_snapshot (m : MemoryRegistry) (serviceName : String)
    (chId : Nat) :
    (m.Watch serviceName chId).2.2 = none
  ∧ (m.Watch serviceName chId).2.1 = [m.getInstances serviceName]
  ∧ (lookupA m.services serviceName = none → (m.Watch serviceName chId).2.1 = [[]]) := by
  refine ⟨rfl, rfl, ?_⟩
  intro h
  show [MemoryRegistry.getInstances _ serviceName] = [[]]
  unfold MemoryRegistry.getInstances
  simp only []
  rw [show lookupA (MemoryRegistry.mk m.services
    (upsertA m.watchers serviceName
      (((lookupA m.watchers serviceName).getD []) ++ [chId]))).services serviceName
    = lookupA m.services serviceName from rfl, h]
  rfl

/-- C6 witness: watching a never-registered name on a fresh registry yields
the channel already holding one empty snapshot. -/
theorem C6_memory_watch_first_snapshot_w :
    (NewMemoryRegistry.Watch "svc-a" 0).2.1 = [[]] :=
  (C6_memory_watch_first_snapshot NewMemoryRegistry "svc-a" 0).2.2 rfl

/-- C8: the resolver's Close only cancels the internally held context, a
total and idempotent state change: a second Close leaves the state exactly
as after the first (no panic, no deadlock in the embedding), and the watch
loop behaves identically after one Close or two. -/
theorem C8_resolver_close_idempotent (r : serviceResolver)
    (snaps : List (List ServiceInstance)) :
    serviceResolver.Close (serviceResolver.Close r) = serviceResolver.Close r
  ∧ (serviceResolver.Close r).ctxDone = true
  ∧ serviceResolver.watchUpdates (serviceResolver.Close (serviceResolver.Close r)) snaps
     = serviceResolver.watchUpdates (serviceResolver.Close r) snaps :=
  ⟨rfl, rfl, rfl⟩

/-- C3: Build fails exactly when the initial Watch call fails (never merely
because the instance list is empty), and the watch loop invokes UpdateState
once per snapshot received from the registry channel with exactly the
addresses of that snapshot's instances; in particular, building against an
in-memory registry already holding one instance produces an UpdateState
call whose address list has length 1 and contains that address, with
ResolveNow a no-op that is never needed. -/
theorem C3_resolver_build_updates :
    (∀ (serviceName : String) (ch : List (List ServiceInstance)),
       ServiceResolverBuilder.Build serviceName ch none
         = Except.ok (serviceResolver.updateStates ch))
  ∧ (∀ (serviceName : String) (ch : List (List ServiceInstance)) (e : String),
       ServiceResolverBuilder.Build serviceName ch (some e)
         = Except.error ("failed to watch service [" ++ serviceName ++ "]: " ++ e))
  ∧ (∀ snaps, serviceResolver.updateStates snaps
       = snaps.map (fun insts => insts.map (fun x => x.address)))
  ∧ (∀ (info : ServiceInfo) (chId : Nat),
       ((NewMemoryRegistry.Register info).1.Watch info.name chId).2.2 = none
       ∧ ServiceResolverBuilder.Build info.name
           ((NewMemoryRegistry.Register info).1.Watch info.name chId).2.1
           ((NewMemoryRegistry.Register info).1.Watch info.name chId).2.2
         = Except.ok [[info.address]]
       ∧ [info.address].length = 1 ∧ info.address ∈ [info.address])
  ∧ (∀ r, serviceResolver.ResolveNow r = r) := by
  refine ⟨fun _ _ => rfl, fun _ _ _ => rfl, fun _ => rfl, ?_, fun _ => rfl⟩
  intro info chId
  refine ⟨rfl, ?_, rfl, List.mem_cons_self _ _⟩
  show Except.ok (serviceResolver.updateStates
    [(MemoryRegistry.getInstances _ info.name)]) = _
  unfold MemoryRegistry.getInstances
  have hsv : (MemoryRegistry.Register NewMemoryRegistry info).1.services
      = [(info.name, [(info.address, info)])] := rfl
  have hlk : lookupA [(info.name, [(info.address, info)])] info.name
      = some [(info.address, info)] := by
    simp [lookupA]
  rw [show lookupA (MemoryRegistry.mk (MemoryRegistry.Register NewMemoryRegistry info).1.services
      (upsertA (MemoryRegistry.Register NewMemoryRegistry info).1.watchers info.name
        (((lookupA (MemoryRegistry.Register NewMemoryRegistry info).1.watchers
          info.name).getD []) ++ [chId]))).services info.name
    = lookupA [(info.name, [(info.address, info)])] info.name from by rw [← hsv], hlk]
  rfl

/-- C10: the in-memory Register and Unregister always return a nil error,
every call makes one notification attempt per current watcher of the
touched service name, Unregister of a never-registered (name, address)
leaves the service map unchanged, and Unregister of the last address of a
name removes the name's entry entirely so the next snapshot is empty. -/
theorem C10_memory_register_unregister :
    (∀ (m : MemoryRegistry) (i : ServiceInfo),
       (m.Register i).2.1 = none ∧ (m.Unregister i).2.1 = none)
  ∧ (∀ (m : MemoryRegistry) (i : ServiceInfo),
       ((m.Register i).2.2).length = ((lookupA m.watchers i.name).getD []).length
       ∧ ((m.Unregister i).2.2).length = ((lookupA m.watchers i.name).getD []).length)
  ∧ (∀ (m : MemoryRegistry) (i : ServiceInfo),
       (∀ p ∈ m.services, p.2 ≠ []) →
       lookupA ((lookupA m.services i.name).getD []) i.address = none →
       ((m.Unregister i).1).services = m.services)
  ∧ (∀ (m : MemoryRegistry) (i : ServiceInfo) (info : ServiceInfo),
       lookupA m.services i.name = some [(i.address, info)] →
       lookupA ((m.Unregister i).1).services i.name = none
       ∧ ((m.Unregister i).1).getInstances i.name = []) := by
  refine ⟨?_, ?_, ?_, ?_⟩
  · intro m i
    constructor
    · rfl
    · unfold MemoryRegistry.Unregister
      cases lookupA m.services i.name with
      | none => rfl
      | some inner =>
          by_cases h : (eraseA inner i.address).length = 0
          · simp only [h, if_pos]
          · simp only [h, if_neg, not_false_iff]
  · intro m i
    constructor
    · show ((MemoryRegistry.notifyAttempts _ i.name)).length = _
      unfold MemoryRegistry.notifyAttempts
      rw [List.length_map]
    · unfold MemoryRegistry.Unregister
      cases hl : lookupA m.services i.name with
      | none =>
          show ((MemoryRegistry.notifyAttempts m i.name)).length = _
          unfold MemoryRegistry.notifyAttempts
          rw [List.length_map]
      | some inner =>
          by_cases h : (eraseA inner i.address).length = 0
          · simp only [h, if_pos]
            show ((MemoryRegistry.notifyAttempts _ i.name)).length = _
            unfold MemoryRegistry.notifyAttempts
            rw [List.length_map]
          · simp only [h, if_neg, not_false_iff]
            show ((MemoryRegistry.notifyAttempts _ i.name)).length = _
            unfold MemoryRegistry.notifyAttempts
            rw [List.length_map]
  · intro m i hne hml
    unfold MemoryRegistry.Unregister
    cases hl : lookupA m.services i.name with
    | none => rfl
    | some inner =>
        rw [hl] at hml
        simp only [Option.getD_some] at hml
        have her : eraseA inner i.address = inner := eraseA_eq_self_of_lookup_none hml
        have hinner : inner ≠ [] := by
          intro hc
          exact hne (i.name, inner) (lookupA_mem hl) hc
        have hlen : ¬ (eraseA inner i.address).length = 0 := by
          rw [her]
          intro hc
          exact hinner (List.length_eq_zero.mp hc)
        simp only [hlen, if_neg, not_false_iff]
        show upsertA m.services i.name (eraseA inner i.address) = m.services
        rw [her]
        exact upsertA_lookup_self hl
  · intro m i info hl
    unfold MemoryRegistry.Unregister
    rw [hl]
    have her : eraseA [(i.address, info)] i.address = [] := by
      simp [eraseA]
    simp only [her, List.length_nil, if_pos]
    constructor
    · exact lookupA_eraseA_self m.services i.name
    · unfold MemoryRegistry.getInstances
      rw [show lookupA (MemoryRegistry.mk (eraseA m.services i.name) m.watchers).services i.name
        = lookupA (eraseA m.services i.name) i.name from rfl]
      rw [lookupA_eraseA_self]
      rfl

/-- C10 witness: on a registry holding one address for "svc-a" and no
watchers, unregistering an unknown address leaves the map unchanged, and
unregistering the last address empties the snapshot. -/
theorem C10_memory_register_unregister_w :
    ((MemoryRegistry.mk
        [("svc-a", [("10.0.0.1:9000", ServiceInfo.mk "svc-a" "10.0.0.1:9000" "v1" [] 0)])] []
      ).Unregister (ServiceInfo.mk "svc-a" "10.0.0.2:9000" "v1" [] 0)).1.services
      = [("svc-a", [("10.0.0.1:9000", ServiceInfo.mk "svc-a" "10.0.0.1:9000" "v1" [] 0)])]
    ∧ ((MemoryRegistry.mk
        [("svc-a", [("10.0.0.1:9000", ServiceInfo.mk "svc-a" "10.0.0.1:9000" "v1" [] 0)])] []
      ).Unregister (ServiceInfo.mk "svc-a" "10.0.0.1:9000" "v1" [] 0)).1.getInstances "svc-a"
      = [] := by
  constructor
  · exact C10_memory_register_unregister.2.2.1
      (MemoryRegistry.mk
        [("svc-a", [("10.0.0.1:9000", ServiceInfo.mk "svc-a" "10.0.0.1:9000" "v1" [] 0)])] [])
      (ServiceInfo.mk "svc-a" "10.0.0.2:9000" "v1" [] 0)
      (by
        intro p hp
        simp only [List.mem_singleton] at hp
        rw [hp]
        simp)
      (by decide)
  · exact (C10_memory_register_unregister.2.2.2
      (MemoryRegistry.mk
        [("svc-a", [("10.0.0.1:9000", ServiceInfo.mk "svc-a" "10.0.0.1:9000" "v1" [] 0)])] [])
      (ServiceInfo.mk "svc-a" "10.0.0.1:9000" "v1" [] 0)
      (ServiceInfo.mk "svc-a" "10.0.0.1:9000" "v1" [] 0)
      (by decide)).2

/-- C9: every instance the etcd Watch snapshot builder produces carries as
metadata exactly the single pair "version" -> stored Version (whatever
Metadata the stored info carried is discarded), instances within one
snapshot have pairwise-distinct addresses, each instance comes from the
first decoded kv with its address, and an address appears in the snapshot
exactly when some decoded kv carries it. -/
theorem C9_etcd_snapshot_shape (kvs : List (Option ServiceInfo)) :
    ((etcdLoadInstances kvs).map ServiceInstance.address).Nodup
  ∧ (∀ inst ∈ etcdLoadInstances kvs,
       ∃ info, firstWithAddr kvs inst.address = some info ∧
         inst.address = info.address ∧
         inst.metadata = [("version", info.version)])
  ∧ (∀ a : String,
       (∃ inst ∈ etcdLoadInstances kvs, inst.address = a) ↔
         (firstWithAddr kvs a).isSome) := by
  refine ⟨etcdLoadGo_nodup kvs [], ?_, ?_⟩
  · intro inst hinst
    exact etcdLoadGo_first kvs [] inst hinst
  · intro a
    constructor
    · intro ⟨inst, hinst, ha⟩
      rcases etcdLoadGo_first kvs [] inst hinst with ⟨info, hfirst, haddr, _⟩
      rw [← ha, hfirst]
      rfl
    · intro h
      exact etcdLoadGo_exists kvs [] a (by simp) h

/-- C9 witness: on a concrete key space with a duplicated address, a bad
value and register-time metadata, the snapshot keeps the first occurrence
per address and replaces the metadata by the single version pair. -/
theorem C9_etcd_snapshot_shape_w :
    ∃ info, firstWithAddr
        [some (ServiceInfo.mk "s" "10.0.0.1:9000" "v1" [("k", "x")] 0), none,
         some (ServiceInfo.mk "s" "10.0.0.1:9000" "v2" [] 0),
         some (ServiceInfo.mk "s" "10.0.0.2:9000" "w1" [] 7)]
        (ServiceInstance.mk "10.0.0.1:9000" [("version", "v1")]).address = some info ∧
      (ServiceInstance.mk "10.0.0.1:9000" [("version", "v1")]).address = info.address ∧
      (ServiceInstance.mk "10.0.0.1:9000" [("version", "v1")]).metadata
        = [("version", info.version)] :=
  (C9_etcd_snapshot_shape
      [some (ServiceInfo.mk "s" "10.0.0.1:9000" "v1" [("k", "x")] 0), none,
       some (ServiceInfo.mk "s" "10.0.0.1:9000" "v2" [] 0),
       some (ServiceInfo.mk "s" "10.0.0.2:9000" "w1" [] 7)]).2.1
    (ServiceInstance.mk "10.0.0.1:9000" [("version", "v1")]) (by decide)

/-!
## Idempotent registration
-/

theorem memoryRegistry_eq_of_fields {x y : MemoryRegistry}
    (h1 : x.services = y.services) (h2 : x.watchers = y.watchers) : x = y := by
  cases x
  cases y
  cases h1
  cases h2
  rfl

theorem etcdRegistry_eq_of_fields {x y : EtcdRegistry}
    (h1 : x.store = y.store) (h2 : x.cache = y.cache) : x = y := by
  cases x
  cases y
  cases h1
  cases h2
  rfl

theorem zkRegistry_eq_of_fields {x y : ZkRegistry} (h0 : x.rootPath = y.rootPath)
    (h1 : x.store = y.store) (h2 : x.cache = y.cache) : x = y := by
  cases x
  cases y
  cases h0
  cases h1
  cases h2
  rfl

/-- One memory registration leaves exactly one instance with the registered
address in the snapshot of that name (on a well-formed state). -/
theorem memory_register_count (m : MemoryRegistry) (i : ServiceInfo) (hwf : m.wf) :
    addrCount (((m.Register i).1).getInstances i.name) i.address = 1 := by
  have hinner := MemoryRegistry.wf_inner hwf i.name
  have hget : ((m.Register i).1).getInstances i.name
      = (upsertA ((lookupA m.services i.name).getD []) i.address i).map
          (fun q => ServiceInstance.mk q.2.address q.2.metadata) := by
    unfold MemoryRegistry.getInstances
    rw [show ((m.Register i).1).services
        = upsertA m.services i.name
            (upsertA ((lookupA m.services i.name).getD []) i.address i) from rfl]
    rw [lookupA_upsertA_self]
    rfl
  rw [hget]
  unfold addrCount
  rw [List.filter_map, List.length_map]
  have hcong : List.filter
        ((fun x => decide (x.address = i.address)) ∘
          (fun q => ServiceInstance.mk q.2.address q.2.metadata))
        (upsertA ((lookupA m.services i.name).getD []) i.address i)
      = List.filter (fun q => decide (q.1 = i.address))
        (upsertA ((lookupA m.services i.name).getD []) i.address i) := by
    apply List.filter_congr
    intro q hq
    rcases mem_upsertA hq with h1 | h2
    · rw [h1]
      simp
    · have hqa := hinner.2 q h2
      simp [Function.comp, hqa]
  rw [hcong]
  exact countKey_eq_one (keysNodup_upsertA _ _ _ hinner.1) (mem_upsertA_self _ _ _)

/-- One etcd registration leaves exactly one instance with the registered
address in the Watch snapshot of that name (deduplication by address). -/
theorem etcd_register_count (e : EtcdRegistry) (i : ServiceInfo) :
    addrCount (etcdSnapshot (((e.Register i).1)).store i.name) i.address = 1 := by
  apply addrCount_eq_one_of_nodup (etcdLoadGo_nodup _ [])
  apply etcdLoadGo_exists _ [] i.address (by simp)
  apply firstWithAddr_isSome_of_mem _ i i.address ?_ rfl
  unfold etcdKvsForService
  apply List.mem_map.mpr
  refine ⟨(etcdKey i.name i.address, i), ?_, rfl⟩
  apply List.mem_filter.mpr
  refine ⟨mem_upsertA_self _ _ _, ?_⟩
  show strStartsWith (etcdPfx i.name) (etcdKey i.name i.address) = true
  exact strStartsWith_append _ _

/-- One zk registration produces the node store
`eraseA store path ++ [(path, address)]`. -/
theorem zk_register_store (z : ZkRegistry) (i : ServiceInfo) :
    ((z.Register i).1).store
      = eraseA z.store (zkServicePath z.rootPath i.name ++ "/" ++ i.address) ++
          [(zkServicePath z.rootPath i.name ++ "/" ++ i.address, i.address)] := by
  show (if (lookupA z.store (zkServicePath z.rootPath i.name ++ "/" ++ i.address)).isSome
      then eraseA z.store (zkServicePath z.rootPath i.name ++ "/" ++ i.address)
      else z.store) ++ [(zkServicePath z.rootPath i.name ++ "/" ++ i.address, i.address)]
    = _
  by_cases hc : (lookupA z.store (zkServicePath z.rootPath i.name ++ "/" ++ i.address)).isSome
  · rw [if_pos hc]
  · rw [if_neg hc,
      eraseA_eq_self_of_lookup_none (Option.not_isSome_iff_eq_none.mp hc)]

/-- C7: Register is idempotent per (name, address) on all three backends:
registering twice with the same name and address (possibly different
metadata or version) yields the same state as registering once with the
second info, and the next snapshot holds exactly one instance for that
address.  The memory count assumes a well-formed state; the zk count
assumes a slash-free address and that distinct children of the service path
carry distinct data (true of states the code itself builds). -/
theorem C7_register_idempotent :
    (∀ (m : MemoryRegistry) (i i' : ServiceInfo), i.name = i'.name → i.address = i'.address →
       ((m.Register i').1.Register i).1 = (m.Register i).1
       ∧ (MemoryRegistry.wf m →
           addrCount ((((m.Register i').1.Register i).1).getInstances i.name) i.address = 1))
  ∧ (∀ (e : EtcdRegistry) (i i' : ServiceInfo), i.name = i'.name → i.address = i'.address →
       ((e.Register i').1.Register i).1 = (e.Register i).1
       ∧ addrCount (etcdSnapshot (((e.Register i').1.Register i).1).store i.name)
           i.address = 1)
  ∧ (∀ (z : ZkRegistry) (i i' : ServiceInfo), i.name = i'.name → i.address = i'.address →
       ((z.Register i').1.Register i).1 = (z.Register i).1
       ∧ ('/' ∉ i.address.data →
          (∀ p ∈ z.store, zkIsChild (zkServicePath z.rootPath i.name) p.1 = true →
             p.2 = i.address →
             p.1 = zkServicePath z.rootPath i.name ++ "/" ++ i.address) →
          addrCount (zkSnapshot (((z.Register i').1.Register i).1).store
            (zkServicePath z.rootPath i.name)) i.address = 1)) := by
  refine ⟨?_, ?_, ?_⟩
  · intro m i i' hn ha
    have hs : (((m.Register i').1).Register i).1.services = ((m.Register i).1).services := by
      show upsertA ((m.Register i').1).services i.name
          (upsertA ((lookupA ((m.Register i').1).services i.name).getD []) i.address i)
        = upsertA m.services i.name
            (upsertA ((lookupA m.services i.name).getD []) i.address i)
      rw [show ((m.Register i').1).services
          = upsertA m.services i'.name
              (upsertA ((lookupA m.services i'.name).getD []) i'.address i') from rfl]
      rw [← hn, ← ha, lookupA_upsertA_self]
      simp only [Option.getD_some]
      rw [upsertA_upsertA_self, upsertA_upsertA_self]
    have heq : (((m.Register i').1).Register i).1 = (m.Register i).1 :=
      memoryRegistry_eq_of_fields hs rfl
    refine ⟨heq, ?_⟩
    intro hwf
    rw [heq]
    exact memory_register_count m i hwf
  · intro e i i' hn ha
    have hs : (((e.Register i').1).Register i).1.store = ((e.Register i).1).store := by
      show upsertA (upsertA e.store (etcdKey i'.name i'.address) i')
          (etcdKey i.name i.address) i = upsertA e.store (etcdKey i.name i.address) i
      rw [← hn, ← ha]
      exact upsertA_upsertA_self _ _ _ _
    have heq : (((e.Register i').1).Register i).1 = (e.Register i).1 :=
      etcdRegistry_eq_of_fields hs rfl
    refine ⟨heq, ?_⟩
    rw [heq]
    exact etcd_register_count e i
  · intro z i i' hn ha
    have hroot : ((z.Register i').1).rootPath = z.rootPath := rfl
    have hs : (((z.Register i').1).Register i).1.store = ((z.Register i).1).store := by
      rw [zk_register_store, zk_register_store, zk_register_store]
      rw [hroot, ← hn, ← ha, eraseA_append, eraseA_eraseA]
      rw [show eraseA [(zkServicePath z.rootPath i.name ++ "/" ++ i.address, i.address)]
          (zkServicePath z.rootPath i.name ++ "/" ++ i.address) = [] from by simp [eraseA]]
      rw [List.append_nil]
    have heq : (((z.Register i').1).Register i).1 = (z.Register i).1 :=
      zkRegistry_eq_of_fields rfl hs rfl
    refine ⟨heq, ?_⟩
    intro hslash huniq
    rw [heq, zk_register_store]
    unfold zkSnapshot addrCount
    rw [List.filter_append, List.map_append, List.filter_append, List.length_append]
    have h1 : (((eraseA z.store (zkServicePath z.rootPath i.name ++ "/" ++ i.address)).filter
          (fun p => zkIsChild (zkServicePath z.rootPath i.name) p.1)).map
          (fun p => ServiceInstance.mk p.2 [])).filter
          (fun x => x.address = i.address) = [] := by
      apply List.filter_eq_nil_iff.mpr
      intro x hx
      simp only [decide_eq_true_eq]
      intro hxa
      rcases List.mem_map.mp hx with ⟨p, hp, hfx⟩
      have hp' := List.mem_filter.mp hp
      have hpe := List.mem_filter.mp hp'.1
      have hchild : zkIsChild (zkServicePath z.rootPath i.name) p.1 = true := hp'.2
      have hdata : p.2 = i.address := by
        rw [← hfx] at hxa
        exact hxa
      have hppath : p.1 = zkServicePath z.rootPath i.name ++ "/" ++ i.address :=
        huniq p hpe.1 hchild hdata
      have hne : p.1 ≠ zkServicePath z.rootPath i.name ++ "/" ++ i.address :=
        of_decide_eq_true hpe.2
      exact hne hppath
    have h2 : ([(zkServicePath z.rootPath i.name ++ "/" ++ i.address, i.address)].filter
          (fun p => zkIsChild (zkServicePath z.rootPath i.name) p.1))
        = [(zkServicePath z.rootPath i.name ++ "/" ++ i.address, i.address)] := by
      rw [List.filter_cons]
      simp [zkIsChild_self (zkServicePath z.rootPath i.name) i.address hslash]
    rw [h1, h2]
    simp

/-- C7 witness: registering "10.0.0.1:9000" for "svc-a" twice (v1 then v2)
on each fresh backend leaves exactly one instance with that address. -/
theorem C7_register_idempotent_w :
    addrCount ((((NewMemoryRegistry.Register
        (ServiceInfo.mk "svc-a" "10.0.0.1:9000" "v1" [] 0)).1.Register
        (ServiceInfo.mk "svc-a" "10.0.0.1:9000" "v2" [] 0)).1).getInstances "svc-a")
      "10.0.0.1:9000" = 1
  ∧ addrCount (etcdSnapshot (((NewEtcdRegistry.Register
        (ServiceInfo.mk "svc-a" "10.0.0.1:9000" "v1" [] 0)).1.Register
        (ServiceInfo.mk "svc-a" "10.0.0.1:9000" "v2" [] 0)).1).store "svc-a")
      "10.0.0.1:9000" = 1
  ∧ addrCount (zkSnapshot ((((ZkRegistry.mk "/services" [] []).Register
        (ServiceInfo.mk "svc-a" "10.0.0.1:9000" "v1" [] 0)).1.Register
        (ServiceInfo.mk "svc-a" "10.0.0.1:9000" "v2" [] 0)).1).store
        (zkServicePath "/services" "svc-a"))
      "10.0.0.1:9000" = 1 := by
  refine ⟨?_, ?_, ?_⟩
  · exact (C7_register_idempotent.1 NewMemoryRegistry
      (ServiceInfo.mk "svc-a" "10.0.0.1:9000" "v2" [] 0)
      (ServiceInfo.mk "svc-a" "10.0.0.1:9000" "v1" [] 0) rfl rfl).2
      (fun p hp => absurd hp (List.not_mem_nil p))
  · exact (C7_register_idempotent.2.1 NewEtcdRegistry
      (ServiceInfo.mk "svc-a" "10.0.0.1:9000" "v2" [] 0)
      (ServiceInfo.mk "svc-a" "10.0.0.1:9000" "v1" [] 0) rfl rfl).2
  · exact (C7_register_idempotent.2.2 (ZkRegistry.mk "/services" [] [])
      (ServiceInfo.mk "svc-a" "10.0.0.1:9000" "v2" [] 0)
      (ServiceInfo.mk "svc-a" "10.0.0.1:9000" "v1" [] 0) rfl rfl).2
      (by decide) (fun p hp => absurd hp (List.not_mem_nil p))

/-- C1 counterexample: in the etcd backend, when the initial full list
fails, the Watch goroutine returns and the deferred close fires even though
the context is not done (the empty script contains no context
cancellation): the channel closes with a reason other than context-done,
contradicting the claim that the channel only closes as a consequence of
the context being done. -/
theorem C1_counterexample :
    etcdWatchRun none [] = [WatchOut.closed CloseReason.initLoadErr]
  ∧ CloseReason.initLoadErr ≠ CloseReason.ctxDone :=
  ⟨rfl, by decide⟩

/-- C1 (amended): for every backend the output channel is closed at most
once, as the final event of the watch goroutine, and carries only
successful snapshots before that; a close is caused by the context being
done — except the etcd backend, where a failure of the initial full list
also terminates the goroutine and closes the channel with the context not
necessarily done; watch-stream errors after a successful initial list are
absorbed and retried, never surfaced, and once a round observes the done
context the goroutine stops with the single close. -/
theorem C1_watch_channel_discipline :
    (∀ initKvs rounds, traceOk (etcdWatchRun initKvs rounds) = true)
  ∧ (∀ initKvs rounds r, WatchOut.closed r ∈ etcdWatchRun initKvs rounds →
       (r = CloseReason.initLoadErr ∧ initKvs = none) ∨
       (r = CloseReason.ctxDone ∧ ∃ rd ∈ rounds, rd.ctxDone = true))
  ∧ (∀ initKvs rounds s, WatchOut.emit s ∈ etcdWatchRun initKvs rounds →
       ∃ kvs, s = etcdLoadInstances kvs)
  ∧ (∀ (rd : EtcdRoundScript) rds, rd.ctxDone = true →
       etcdOuter (rd :: rds) = [WatchOut.closed CloseReason.ctxDone])
  ∧ (∀ sp iters, traceOk (zkRun sp iters) = true)
  ∧ (∀ sp iters r, WatchOut.closed r ∈ zkRun sp iters →
       r = CloseReason.ctxDone ∧ ∃ it ∈ iters, it.childrenErr = false ∧
         (it.ctxDoneAtSend = true ∨ it.ctxDoneAtWait = true))
  ∧ (∀ init notifs ctxDone,
       traceOk (memoryWatchTrace init notifs ctxDone) = true
       ∧ (WatchOut.closed CloseReason.ctxDone ∈ memoryWatchTrace init notifs ctxDone
            ↔ ctxDone = true)
       ∧ ∀ r, WatchOut.closed r ∈ memoryWatchTrace init notifs ctxDone →
           r = CloseReason.ctxDone) := by
  refine ⟨?_, ?_, ?_, ?_, zkRun_traceOk, fun sp iters r => zkRun_closed, ?_⟩
  · intro initKvs rounds
    match initKvs with
    | none => rfl
    | some kvs =>
        show traceOk (WatchOut.emit (etcdLoadInstances kvs) :: etcdOuter rounds) = true
        exact etcdOuter_traceOk rounds
  · intro initKvs rounds r h
    match initKvs with
    | none =>
        left
        refine ⟨?_, rfl⟩
        rcases List.mem_cons.mp h with h1 | h1
        · exact (WatchOut.closed.injEq _ _ ▸ h1 : _)
        · exact absurd h1 (List.not_mem_nil _)
    | some kvs =>
        right
        rcases List.mem_cons.mp h with h1 | h1
        · exact WatchOut.noConfusion h1
        · exact etcdOuter_closed h1
  · intro initKvs rounds s h
    match initKvs with
    | none =>
        rcases List.mem_cons.mp h with h1 | h1
        · exact WatchOut.noConfusion h1
        · exact absurd h1 (List.not_mem_nil _)
    | some kvs =>
        rcases List.mem_cons.mp h with h1 | h1
        · exact ⟨kvs, (WatchOut.emit.injEq _ _ ▸ h1 : _)⟩
        · rcases etcdOuter_emit h1 with ⟨rd, _, kvs', _, hs⟩
          exact ⟨kvs', hs⟩
  · intro rd rds h
    simp [etcdOuter, h]
  · intro init notifs ctxDone
    exact ⟨memoryTrace_traceOk init notifs ctxDone,
      (memoryTrace_closed_iff init notifs ctxDone).1,
      (memoryTrace_closed_iff init notifs ctxDone).2⟩

/-- C1 amended-theorem witness: on the empty script with a failed initial
list the trace is well closed, and the close-cause disjunction holds there
with the initial-load-error side. -/
theorem C1_watch_channel_discipline_w :
    traceOk (etcdWatchRun none []) = true
  ∧ ((CloseReason.initLoadErr = CloseReason.initLoadErr ∧
        (none : Option (List (Option ServiceInfo))) = none) ∨
     (CloseReason.initLoadErr = CloseReason.ctxDone ∧
        ∃ rd ∈ ([] : List EtcdRoundScript), rd.ctxDone = true)) :=
  ⟨C1_watch_channel_discipline.1 none [],
   C1_watch_channel_discipline.2.1 none [] CloseReason.initLoadErr (by decide)⟩

/-- C5: the etcd watch retry loop sleeps `min (2^i) 30` seconds before its
(i+1)-st retry — 1s at first, doubling, capped at 30s — while ZooKeeper
always sleeps the fixed 2s; a watch-stream failure does not stop either
loop (it proceeds to the next round); and every snapshot either backend
ever delivers, in particular the first one after a retry, is a full
re-list of the service's key space taken by the script, not an incremental
patch. -/
theorem C5_retry_backoff_resync :
    (∀ (rounds : List EtcdRoundScript) (i d : Nat),
       (etcdSleeps 1 rounds)[i]? = some d → d = min (2 ^ i) 30)
  ∧ (∀ (rounds : List EtcdRoundScript) (d : Nat),
       d ∈ etcdSleeps 1 rounds → 1 ≤ d ∧ d ≤ 30)
  ∧ (∀ b, etcdNextBackoff b = min (2 * b) 30)
  ∧ (∀ (iters : List ZkIter) (d : Nat), d ∈ zkSleepList iters → d = zkRetryDelaySeconds)
  ∧ (∀ initKvs rounds s, WatchOut.emit s ∈ etcdWatchRun initKvs rounds →
       ∃ kvs ∈ etcdScriptKvs initKvs rounds, s = etcdLoadInstances kvs)
  ∧ (∀ sp iters s, WatchOut.emit s ∈ zkRun sp iters →
       ∃ it ∈ iters, it.childrenErr = false ∧ s = zkSnapshot it.store sp)
  ∧ (∀ (rd : EtcdRoundScript) rds, rd.ctxDone = false →
       etcdOuter (rd :: rds) = (etcdInnerEmits rd.evs).map WatchOut.emit ++ etcdOuter rds)
  ∧ (∀ sp (it : ZkIter) rest, it.childrenErr = true →
       zkRun sp (it :: rest) = zkRun sp rest) := by
  refine ⟨?_, ?_, etcdNextBackoff_eq_min, zkSleepList_all_two, ?_, ?_, ?_, ?_⟩
  · intro rounds i d h
    have h1 : (etcdSleeps (etcdBackoffVal 0) rounds)[i]? = some d := by
      rw [etcdBackoffVal_zero]
      exact h
    have := etcdSleeps_getElem rounds 0 i d h1
    rw [this]
    unfold etcdBackoffVal
    rw [Nat.zero_add]
  · intro rounds d h
    have h1 : d ∈ etcdSleeps (etcdBackoffVal 0) rounds := by
      rw [etcdBackoffVal_zero]
      exact h
    exact etcdSleeps_bounds rounds 0 d h1
  · intro initKvs rounds s h
    match initKvs with
    | none =>
        rcases List.mem_cons.mp h with h1 | h1
        · exact WatchOut.noConfusion h1
        · exact absurd h1 (List.not_mem_nil _)
    | some kvs =>
        rcases List.mem_cons.mp h with h1 | h1
        · refine ⟨kvs, ?_, (WatchOut.emit.injEq _ _ ▸ h1 : _)⟩
          exact List.mem_cons_self _ _
        · rcases etcdOuter_emit h1 with ⟨rd, hrd, kvs', hev, hs⟩
          refine ⟨kvs', ?_, hs⟩
          unfold etcdScriptKvs
          apply List.mem_append.mpr
          right
          apply List.mem_filterMap.mpr
          refine ⟨EtcdWatchEv.respOk kvs', ?_, rfl⟩
          apply List.mem_flatMap.mpr
          exact ⟨rd, hrd, hev⟩
  · intro sp iters s h
    exact zkRun_emit h
  · intro rd rds h
    simp [etcdOuter, h]
  · intro sp it rest h
    simp [zkRun, h]

/-- C5 witness: six consecutive watch failures sleep 1, 2, 4, 8, 16, 30
seconds — the sixth retry delay is the 30s cap — and a failed ChildrenW
iteration sleeps the fixed 2s. -/
theorem C5_retry_backoff_resync_w :
    (30 : Nat) = min (2 ^ 5) 30 ∧ (2 : Nat) = zkRetryDelaySeconds :=
  ⟨C5_retry_backoff_resync.1
      (List.replicate 6 (EtcdRoundScript.mk false [EtcdWatchEv.respErr])) 5 30 (by decide),
   C5_retry_backoff_resync.2.2.2.1 [ZkIter.mk true [] false false] 2 (by decide)⟩
